/-
Verification of the tw-stock-daily incremental synchronization pipeline
(tw_stock.py) against its natural-language specification.

The Python module is shallowly embedded: the database is a pair of row
lists (stock table, quote table), dates are proleptic Gregorian ordinals
(as produced by datetime.date.toordinal), each single-day sync is one
state transition taking the already-fetched CSV payload as input, and the
bounded-retry loop is embedded as an explicit three-attempt combinator.
All definitions are executable and follow the source line by line.
-/

import Mathlib

set_option maxHeartbeats 1000000

/-- Characters of a Python string, modelled as a list. -/
abbrev Chars := List Char

/-- Decidable equality of attempt outcomes, so concrete runs can be
checked by evaluation. -/
instance {ε α : Type} [DecidableEq ε] [DecidableEq α] :
    DecidableEq (Except ε α) := fun x y =>
  match x, y with
  | .ok a, .ok b =>
    if h : a = b then isTrue (by rw [h]) else isFalse (by simp [h])
  | .error a, .error b =>
    if h : a = b then isTrue (by rw [h]) else isFalse (by simp [h])
  | .ok _, .error _ => isFalse (by simp)
  | .error _, .ok _ => isFalse (by simp)

/-! ## Calendar ordinals (datetime.date.toordinal) -/

/-- Gregorian leap-year test. -/
def isLeapYear (y : Nat) : Bool :=
  y % 4 == 0 && (y % 100 != 0 || y % 400 == 0)

/-- Cumulative day count before month m (1-based) in a non-leap year. -/
def daysBeforeMonth (m : Nat) : Nat :=
  [0, 0, 31, 59, 90, 120, 151, 181, 212, 243, 273, 304, 334].getD m 0

/-- Proleptic Gregorian ordinal of a calendar date, with day 1 being
0001-01-01, matching Python datetime.date.toordinal. -/
def dateOrd (y m d : Nat) : Nat :=
  365 * (y - 1) + (y - 1) / 4 - (y - 1) / 100 + (y - 1) / 400 +
    daysBeforeMonth m + (if 2 < m && isLeapYear y then 1 else 0) + d

/-- QUOTE_EPOCH = datetime.date(2007, 4, 23): earliest date with
overlapping TWSE/OTC coverage (tw_stock.py line 18). -/
def QUOTE_EPOCH : Nat := dateOrd 2007 4 23

/-! ## The clean() text normalizer (tw_stock.py lines 114-129) -/

/-- Scan for a closing quote character, returning the text before it. -/
def splitAtChar (q : Char) : Chars → Option Chars
  | [] => none
  | c :: cs => if c = q then some [] else (splitAtChar q cs).map (c :: ·)

/-- One wrapper-stripping pass of clean(): the prefix regex ="([^"]*)"
(and its single-quote twin) keeps only the captured group when the text
starts with = followed by the quote character and a closing quote
exists; otherwise the text is unchanged. -/
def stripWrapper (q : Char) (s : Chars) : Chars :=
  match s with
  | e :: c :: rest =>
    if e = '=' then
      if c = q then
        match splitAtChar q rest with
        | some body => body
        | none => s
      else s
    else s
  | _ => s

/-- str.replace(c, "") for a single character: drop every occurrence. -/
def removeChar (c : Char) (s : Chars) : Chars :=
  s.filter (fun d => !(d = c : Bool))

/-- Fuel-driven worker for removeSub; the fuel starts at the length of
the string and every step consumes at least one character. -/
def removeSubFuel (pat : Chars) : Nat → Chars → Chars
  | _, [] => []
  | 0, s => s
  | fuel + 1, c :: cs =>
    if 0 < pat.length ∧ pat.isPrefixOf (c :: cs) then
      removeSubFuel pat fuel ((c :: cs).drop pat.length)
    else
      c :: removeSubFuel pat fuel cs

/-- str.replace(pat, "") for a multi-character pattern: remove
non-overlapping occurrences left to right. -/
def removeSub (pat s : Chars) : Chars :=
  removeSubFuel pat s.length s

/-- Whitespace stripped by str.strip() (ASCII range). -/
def pyIsSpace (c : Char) : Bool :=
  c = Char.ofNat 32 || c = Char.ofNat 9 || c = Char.ofNat 10 ||
  c = Char.ofNat 11 || c = Char.ofNat 12 || c = Char.ofNat 13

/-- str.strip(): drop leading and trailing whitespace. -/
def pyStrip (s : Chars) : Chars :=
  ((s.dropWhile pyIsSpace).reverse.dropWhile pyIsSpace).reverse

/-- clean(text) from tw_stock.py lines 114-129: strip an outer ="..."
wrapper or its single-quote twin, remove spaces, commas, tabs, the
literal sequence &nbsp; and the two circled-operator marks, then strip
whitespace. -/
def clean (text : Chars) : Chars :=
  let t1 := stripWrapper (Char.ofNat 34) text
  let t2 := stripWrapper (Char.ofNat 39) t1
  pyStrip (removeChar (Char.ofNat 0x2299) (removeChar (Char.ofNat 0x2295)
    (removeSub ("&nbsp;".data) (removeChar (Char.ofNat 9)
      (removeChar ',' (removeChar (Char.ofNat 32) t2))))))

/-! ## Numeric field parsers (_safe_int, _safe_decimal) -/

/-- Value of a digit list, most significant first. -/
def digitsVal (cs : Chars) : Nat :=
  cs.foldl (fun acc c => 10 * acc + (c.toNat - 48)) 0

/-- Nonempty all-digit string to Nat; none otherwise.  Embeds the inputs
int() accepts after clean() has removed separators (the feeds never use
underscore separators or non-ASCII digits). -/
def digitsToNat (cs : Chars) : Option Nat :=
  if 0 < cs.length ∧ cs.all Char.isDigit then some (digitsVal cs) else none

/-- Python int(str) on a cleaned field: optional sign, then digits. -/
def parseInt (cs : Chars) : Option Int :=
  match cs with
  | '+' :: rest => (digitsToNat rest).map Int.ofNat
  | '-' :: rest => (digitsToNat rest).map (fun n => -(n : Int))
  | _ => (digitsToNat cs).map Int.ofNat

/-- _safe_int (tw_stock.py lines 253-260): clean, empty means missing,
otherwise int() with ValueError mapped to none. -/
def safe_int (value : Chars) : Option Int :=
  let v := clean value
  if v = [] then none else parseInt v

/-- An exact decimal value as parsed by decimal.Decimal: mantissa and
scale, denoting mant / 10 ^ scale.  Equality is representation equality,
matching the exact-precision storage of str(Decimal(v)). -/
structure Dec where
  mant : Int
  scale : Nat
deriving DecidableEq

/-- decimal.Decimal on a cleaned quote field: optional sign, integer
digits, optional fractional part (the fixed-point literal forms the
feeds produce; engineering-notation forms never occur in them). -/
def parseDec (cs : Chars) : Option Dec :=
  let signAndRest : Int × Chars :=
    match cs with
    | '+' :: r => (1, r)
    | '-' :: r => (-1, r)
    | r => (1, r)
  let sg := signAndRest.1
  let rest := signAndRest.2
  let ip := rest.takeWhile Char.isDigit
  let tail := rest.dropWhile Char.isDigit
  match tail with
  | [] => if 0 < ip.length then some ⟨sg * (digitsVal ip : Int), 0⟩ else none
  | '.' :: fp =>
    if fp.all Char.isDigit ∧ 0 < ip.length + fp.length then
      some ⟨sg * (digitsVal (ip ++ fp) : Int), fp.length⟩
    else none
  | _ => none

/-- _safe_decimal (tw_stock.py lines 263-270): clean, the sentinels
empty, --- and -- mean missing, otherwise Decimal() with
InvalidOperation mapped to none. -/
def safe_decimal (value : Chars) : Option Dec :=
  let v := clean value
  if v = [] ∨ v = ("---".data) ∨ v = ("--".data) then none else parseDec v

/-- float(openValue) <= 0 on an exact feed decimal: the sign test on the
exact value, which is the sign of the mantissa. -/
def decNonpos (d : Dec) : Bool := decide (d.mant ≤ 0)

/-! ## The security-id predicate is_id (tw_stock.py lines 102-111) -/

/-- First character of the list is c. -/
def headIs (c : Char) : Chars → Bool
  | [] => false
  | d :: _ => decide (d = c)

/-- Prefix match of the regex \d+[A-Z]? via re.match: one or more
digits then optionally one uppercase letter, anywhere at the start of
the string.  Because the pattern is not anchored at the end and the
letter is optional, it succeeds exactly when the string starts with a
digit. -/
def matchIdPrefix : Chars → Bool
  | [] => false
  | c :: _ => c.isDigit

/-- is_id (tw_stock.py lines 102-111). -/
def is_id (stock_id : Chars) : Bool :=
  if stock_id.length = 0 then false
  else if !matchIdPrefix stock_id then false
  else if 4 < stock_id.length && headIs '7' stock_id then false
  else if !headIs '0' stock_id then true
  else ("00".data).isPrefixOf stock_id || ("01".data).isPrefixOf stock_id ||
    ("02".data).isPrefixOf stock_id

/-! ## The relational store -/

/-- One row of the stock table: stock(ID, name, market, mindate, maxdate)
with ID as primary key. -/
structure StockRow where
  id : Chars
  name : Chars
  market : Chars
  mindate : Nat
  maxdate : Nat
deriving DecidableEq

/-- One row of the quote table with composite key (ID, date); columns
absent from an INSERT are NULL. -/
structure QuoteRow where
  id : Chars
  qdate : Nat
  open_ : Option Dec
  high : Option Dec
  low : Option Dec
  close : Option Dec
  volume : Option Int
  turnover : Option Int
  delta : Option Dec
  tickcount : Option Int
deriving DecidableEq

/-- The database state reached through the sqlite connection. -/
structure DB where
  stock : List StockRow
  quote : List QuoteRow
deriving DecidableEq

/-- SELECT 1 FROM quote WHERE ID = m AND date = d (the watermark probe
at tw_stock.py lines 278 and 374). -/
def markerExists (m : Chars) (d : Nat) (s : DB) : Bool :=
  s.quote.any fun q => decide (q.id = m) && decide (q.qdate = d)

/-- ID membership test on the stock table. -/
def stockHasId (i : Chars) (l : List StockRow) : Bool :=
  l.any fun r => decide (r.id = i)

/-- ID IN (SELECT ID FROM stock WHERE market = m). -/
def taggedWith (m i : Chars) (s : DB) : Bool :=
  s.stock.any fun r => decide (r.id = i) && decide (r.market = m)

/-- The forced DELETE (tw_stock.py lines 281-285 and 377-381): remove
every quote row at the given date whose id is currently tagged with the
market in the stock table or is the market-marker id itself. -/
def force_delete (m : Chars) (d : Nat) (s : DB) : DB :=
  ⟨s.stock,
   s.quote.filter fun q =>
     !((taggedWith m q.id s || decide (q.id = m)) && decide (q.qdate = d))⟩

/-- Plain INSERT INTO quote: raises (IntegrityError) when a row with the
same (ID, date) key already exists. -/
def quote_insert (q : QuoteRow) (s : DB) : Except Unit DB :=
  if s.quote.any fun r => decide (r.id = q.id) && decide (r.qdate = q.qdate) then
    .error ()
  else .ok ⟨s.stock, s.quote ++ [q]⟩

/-- The per-security stock upsert (tw_stock.py lines 348-357): INSERT OR
IGNORE a fresh row with mindate = maxdate = date; when the id already
existed, UPDATE name, market and maxdate to the ingested values. -/
def stock_upsert (i n m : Chars) (d : Nat) (s : DB) : DB :=
  if stockHasId i s.stock then
    ⟨s.stock.map fun r =>
       if r.id = i then { r with name := n, market := m, maxdate := d } else r,
     s.quote⟩
  else ⟨s.stock ++ [⟨i, n, m, d, d⟩], s.quote⟩

/-- The marker quote row written by _upsert_market_marker: only ID, date
and volume (the per-day inserted count) are set. -/
def marker_quote_row (m : Chars) (d : Nat) (count : Nat) : QuoteRow :=
  ⟨m, d, none, none, none, none, some (count : Int), none, none, none⟩

/-- _upsert_market_marker (tw_stock.py lines 240-250): INSERT OR IGNORE
the synthetic stock row, UPDATE its maxdate to the processed date, then
INSERT OR REPLACE the (market, date) quote row carrying the count. -/
def upsert_market_marker (m : Chars) (d : Nat) (count : Nat) (s : DB) : DB :=
  let st0 := if stockHasId m s.stock then s.stock else s.stock ++ [⟨m, m, m, d, d⟩]
  let st := st0.map fun r => if r.id = m then { r with maxdate := d } else r
  let qt := (s.quote.filter fun q => !(decide (q.id = m) && decide (q.qdate = d))) ++
    [marker_quote_row m d count]
  ⟨st, qt⟩

/-! ## Row validation (the per-market parse of one CSV record) -/

/-- A parsed, validated, not-yet-persisted quote record together with
the display name of its security. -/
structure Candidate where
  id : Chars
  name : Chars
  volume : Int
  turnover : Int
  open_ : Dec
  high : Dec
  low : Dec
  close : Dec
  delta : Option Dec
  tickcount : Int
deriving DecidableEq

/-- The TWSE row validator (tw_stock.py lines 296-330): field layout
id, name, volume, tickcount, turnover, open, high, low, close, sign,
delta; rows with fewer than 11 fields, an unrecognized id, missing or
non-positive volume, a missing numeric field, or a non-positive price
are rejected; the X sign sentinel makes delta null. -/
def twse_parse_row (row : List Chars) : Option Candidate :=
  if row.length < 11 then none else
  if !is_id (clean (row.getD 0 [])) then none else
  match safe_int (row.getD 2 []), safe_decimal (row.getD 5 []) with
  | some volume, some opening =>
    if volume ≤ 0 then none else
    match safe_int (row.getD 4 []), safe_decimal (row.getD 6 []),
      safe_decimal (row.getD 7 []), safe_decimal (row.getD 8 []),
      safe_int (row.getD 3 []) with
    | some turnover, some high, some low, some closing, some tickcount =>
      if decNonpos opening || decNonpos high || decNonpos low || decNonpos closing
      then none
      else some ⟨clean (row.getD 0 []), clean (row.getD 1 []), volume, turnover,
        opening, high, low, closing,
        (if clean (row.getD 9 []) = ("X".data) then none
         else safe_decimal (row.getD 10 [])), tickcount⟩
    | _, _, _, _, _ => none
  | _, _ => none

/-- The OTC row validator (tw_stock.py lines 391-426): field layout id,
name, close, delta, open, high, low, (unused), volume, turnover,
tickcount; same rejection policy, and a missing close also rejects. -/
def otc_parse_row (row : List Chars) : Option Candidate :=
  if row.length < 11 then none else
  if !is_id (clean (row.getD 0 [])) then none else
  match safe_decimal (row.getD 2 []), safe_int (row.getD 8 []),
    safe_decimal (row.getD 4 []), safe_decimal (row.getD 5 []),
    safe_decimal (row.getD 6 []), safe_int (row.getD 9 []),
    safe_int (row.getD 10 []) with
  | some closing, some volume, some opening, some high, some low,
    some turnover, some tickcount =>
    if volume ≤ 0 then none
    else if decNonpos opening || decNonpos high || decNonpos low ||
      decNonpos closing then none
    else some ⟨clean (row.getD 0 []), clean (row.getD 1 []), volume, turnover,
      opening, high, low, closing, safe_decimal (row.getD 3 []), tickcount⟩
  | _, _, _, _, _, _, _ => none

/-- The quote row inserted for an accepted candidate at the given date. -/
def candidate_quote_row (c : Candidate) (d : Nat) : QuoteRow :=
  ⟨c.id, d, some c.open_, some c.high, some c.low, some c.close,
   some c.volume, some c.turnover, c.delta, some c.tickcount⟩

/-! ## One fetch-parse-upsert attempt and the bounded retry -/

/-- The CSV body loop of one attempt: each raw row is validated; an
accepted candidate inserts its quote row (failing the attempt on a key
collision), upserts its stock row and increments the count. -/
def ingest_rows (parse : List Chars → Option Candidate) (market : Chars)
    (d : Nat) : List (List Chars) → DB → Nat → Except Unit (DB × Nat)
  | [], s, count => .ok (s, count)
  | r :: rest, s, count =>
    match parse r with
    | none => ingest_rows parse market d rest s count
    | some c =>
      match quote_insert (candidate_quote_row c d) s with
      | .error e => .error e
      | .ok s1 =>
        ingest_rows parse market d rest (stock_upsert c.id c.name market d s1)
          (count + 1)

/-- One whole attempt of the retry loop body: ingest every payload row,
then upsert the market marker with the inserted count; the commit makes
the resulting state the new visible state. -/
def attempt_body (parse : List Chars → Option Candidate) (market : Chars)
    (d : Nat) (rows : List (List Chars)) (s : DB) : Except Unit DB :=
  match ingest_rows parse market d rows s 0 with
  | .error e => .error e
  | .ok (s1, count) => .ok (upsert_market_marker market d count s1)

/-- The bounded retry loop, for retry in range(3) with try/except
(tw_stock.py lines 290-366 and 385-462): an attempt outcome indexed by
the attempt number is consulted until one succeeds; every caught
exception is printed (the returned log) and the third failure is
re-raised. -/
def retry3 {ε α : Type} (att : Nat → Except ε α) : Except ε α × List ε :=
  match att 0 with
  | .ok a => (.ok a, [])
  | .error e0 =>
    match att 1 with
    | .ok a => (.ok a, [e0])
    | .error e1 =>
      match att 2 with
      | .ok a => (.ok a, [e0, e1])
      | .error e2 => (.error e2, [e0, e1, e2])

/-- A single-day sync with the fetched payload given as input: return
immediately when the watermark row exists and force is false, otherwise
optionally delete the day for a forced replacement and run the retried
attempt (deterministic here, because the payload is fixed). -/
def update_daily (parse : List Chars → Option Candidate) (market : Chars)
    (d : Nat) (force : Bool) (rows : List (List Chars)) (s : DB) :
    Except Unit DB :=
  if markerExists market d s && !force then .ok s
  else
    let s0 := if force then force_delete market d s else s
    (retry3 fun _ => attempt_body parse market d rows s0).1

/-- update_daily_twse_quotes (tw_stock.py lines 273-366). -/
def update_daily_twse_quotes (d : Nat) (force : Bool)
    (rows : List (List Chars)) (s : DB) : Except Unit DB :=
  update_daily twse_parse_row ("TWSE".data) d force rows s

/-- update_daily_otc_quotes (tw_stock.py lines 369-462). -/
def update_daily_otc_quotes (d : Nat) (force : Bool)
    (rows : List (List Chars)) (s : DB) : Except Unit DB :=
  update_daily otc_parse_row ("OTC".data) d force rows s

/-! ## Watermark resolution and the orchestrator -/

/-- SQL MAX aggregation over a list of dates. -/
def listMax : List Nat → Option Nat
  | [] => none
  | d :: ds =>
    some (match listMax ds with
          | none => d
          | some m => max d m)

/-- SELECT MAX(date) FROM quote WHERE ID = i (tw_stock.py lines
472-473). -/
def sql_max_date (i : Chars) (s : DB) : Option Nat :=
  listMax ((s.quote.filter fun q => decide (q.id = i)).map (·.qdate))

/-- The resolved next-pending date of a market (tw_stock.py lines
475-476): QUOTE_EPOCH when the marker has no quote rows, otherwise the
maximum recorded date plus one day.  A pure read of the store. -/
def next_from (i : Chars) (s : DB) : Nat :=
  match sql_max_date i s with
  | none => QUOTE_EPOCH
  | some d => d + 1

/-- The effective "today" of continue_update_quotes (lines 466-469):
before 15:00 local the previous day, otherwise the current date. -/
def effective_today (nowDate nowHour : Nat) : Nat :=
  if nowHour < 15 then nowDate - 1 else nowDate

/-- The date walk of continue_update_quotes (lines 478-484), recorded as
the list of (market, date) single-day sync invocations; the fuel is the
number of remaining days up to and including today. -/
def walk_from (tf og : Nat) : Nat → Nat → List (Chars × Nat)
  | _, 0 => []
  | cur, fuel + 1 =>
    (if tf ≤ cur then [(("TWSE".data), cur)] else []) ++
    (if og ≤ cur then [(("OTC".data), cur)] else []) ++
    walk_from tf og (cur + 1) fuel

/-- continue_update_quotes (tw_stock.py lines 465-484) as its schedule:
the ordered list of single-day sync invocations it performs, walking
from the earlier of the two next-pending dates through the effective
today. -/
def continue_update_quotes (nowDate nowHour : Nat) (s : DB) :
    List (Chars × Nat) :=
  let today := effective_today nowDate nowHour
  let tf := next_from ("TWSE".data) s
  let og := next_from ("OTC".data) s
  let start := min tf og
  walk_from tf og start (today + 1 - start)

/-! ## The read-only stock queries (count_stocks / list_stocks) -/

/-- One row of the derived stock_future_view joining stock and
stock_future by id. -/
structure ViewRow where
  id : Chars
  name : Chars
  market : Chars
  future : Option Chars
  mini_future : Option Chars
  mindate : Nat
  maxdate : Nat
deriving DecidableEq

/-- The record yielded by list_stocks (the StockInfo dataclass columns
selected at tw_stock.py lines 188-195). -/
structure StockInfo where
  id : Chars
  name : Chars
  future : Option Chars
  mini_future : Option Chars
  mindate : Nat
  maxdate : Nat
deriving DecidableEq

/-- str.upper() on the market argument (ASCII market names). -/
def upperChars (s : Chars) : Chars := s.map Char.toUpper

/-- The market normalization of _build_stock_where: uppercase, and the
TPEX alias maps to OTC. -/
def normalize_market (m : Chars) : Chars :=
  let u := upperChars m
  if u = ("TPEX".data) then ("OTC".data) else u

/-- _build_stock_where (tw_stock.py lines 156-176) as the row predicate
of the generated WHERE clause: the two market-marker ids are excluded,
then the optional mindate, maxdate and market conditions apply (a falsy
empty market string adds no condition). -/
def build_stock_where (b e : Option Nat) (m : Option Chars) (r : ViewRow) :
    Bool :=
  decide (r.id ≠ ("TWSE".data)) && decide (r.id ≠ ("OTC".data)) &&
  (match b with
   | none => true
   | some bd => decide (r.mindate ≤ bd)) &&
  (match e with
   | none => true
   | some ed => decide (ed ≤ r.maxdate)) &&
  (match m with
   | none => true
   | some mk => if mk = [] then true else decide (r.market = normalize_market mk))

/-- count_stocks (tw_stock.py lines 179-185): SELECT COUNT(*) over the
view with the shared WHERE clause. -/
def count_stocks (b e : Option Nat) (m : Option Chars)
    (view : List ViewRow) : Nat :=
  (view.filter (build_stock_where b e m)).length

/-- Lexicographic byte order on text ids, the ORDER BY ID collation. -/
def charsLe : Chars → Chars → Bool
  | [], _ => true
  | _ :: _, [] => false
  | a :: as, b :: bs => if a = b then charsLe as bs else decide (a < b)

/-- Insertion step of the ORDER BY ID sort. -/
def insertSorted (r : ViewRow) : List ViewRow → List ViewRow
  | [] => [r]
  | x :: xs => if charsLe r.id x.id then r :: x :: xs else x :: insertSorted r xs

/-- ORDER BY ID over the filtered view rows. -/
def sortByID (l : List ViewRow) : List ViewRow := l.foldr insertSorted []

/-- The six selected columns of one yielded row. -/
def toStockInfo (r : ViewRow) : StockInfo :=
  ⟨r.id, r.name, r.future, r.mini_future, r.mindate, r.maxdate⟩

/-- list_stocks (tw_stock.py lines 188-195): the generator yielding a
StockInfo per view row matching the shared WHERE clause, ordered by id. -/
def list_stocks (b e : Option Nat) (m : Option Chars)
    (view : List ViewRow) : List StockInfo :=
  (sortByID (view.filter (build_stock_where b e m))).map toStockInfo

/-! ## Concrete fixtures for witnesses and counterexamples -/

/-- Extract the committed state of a successful run. -/
def exGet (x : Except Unit DB) : DB :=
  match x with
  | .ok s => s
  | .error _ => ⟨[], []⟩

/-- The maxdate column of the first stock row carrying the given id. -/
def stockMaxdate (i : Chars) (s : DB) : Option Nat :=
  ((s.stock.filter fun r => decide (r.id = i)).map (·.maxdate)).head?

/-- A well-formed 11-field TWSE CSV record for security 2330. -/
def sampleTwseRow : List Chars :=
  [("2330".data), ("台積電".data), ("1000".data), ("100".data), ("500".data),
   ("600".data), ("610".data), ("590".data), ("605".data), ("+".data),
   ("1.5".data)]

/-- A well-formed 11-field OTC CSV record for security 2330. -/
def sampleOtcRow : List Chars :=
  [("2330".data), ("台積電".data), ("605".data), ("1.5".data), ("600".data),
   ("610".data), ("590".data), ("x".data), ("1000".data), ("500".data),
   ("100".data)]

/-- The candidate produced by sampleTwseRow. -/
def sampleTwseCandidate : Candidate :=
  ⟨("2330".data), ("台積電".data), 1000, 500, ⟨600, 0⟩, ⟨610, 0⟩, ⟨590, 0⟩,
   ⟨605, 0⟩, some ⟨15, 1⟩, 100⟩

/-- The first sample row of the validation claim: volume field 0. -/
def claimRejectRow : List Chars :=
  [("2330".data), ("台積電".data), ("0".data), ("100".data), ("500".data),
   ("---".data), ("600".data), ("590".data), ("605".data), ("0".data),
   ("X".data)]

/-- The second sample row of the validation claim, exactly as listed
there: ten fields, the sign column being absent. -/
def claimShortRow : List Chars :=
  [("2330".data), ("台積電".data), ("1000".data), ("100".data), ("500".data),
   ("600".data), ("610".data), ("590".data), ("605".data), ("1.5".data)]

/-- Ordinal of 2023-01-03. -/
def dayA : Nat := dateOrd 2023 1 3

/-- Ordinal of 2023-01-10. -/
def dayB : Nat := dateOrd 2023 1 10

/-- The empty store. -/
def emptyDB : DB := ⟨[], []⟩

/-- State after syncing TWSE day dayB into the empty store. -/
def cexS1 : DB := exGet (update_daily_twse_quotes dayB false [sampleTwseRow] emptyDB)

/-- State after then force-replaying the older day dayA for TWSE. -/
def cexS2 : DB := exGet (update_daily_twse_quotes dayA true [sampleTwseRow] cexS1)

/-- State after a further empty-payload TWSE sync of day dayB + 1. -/
def cexS3 : DB := exGet (update_daily_twse_quotes (dayB + 1) false [] cexS1)

/-- The TWSE marker stock row as it stands in cexS1. -/
def markerRowB : StockRow :=
  ⟨("TWSE".data), ("TWSE".data), ("TWSE".data), dayB, dayB⟩

/-- The TWSE marker stock row as it stands in cexS3. -/
def markerRowB2 : StockRow :=
  ⟨("TWSE".data), ("TWSE".data), ("TWSE".data), dayB, dayB + 1⟩

/-- A store already carrying both market watermarks for day 5. -/
def markerOnlyDB : DB :=
  ⟨[], [marker_quote_row ("TWSE".data) 5 0, marker_quote_row ("OTC".data) 5 0]⟩

/-- A store whose TWSE marker has quote rows at days 10 and 12. -/
def twoMarkerDB : DB :=
  ⟨[], [marker_quote_row ("TWSE".data) 10 0, marker_quote_row ("TWSE".data) 12 3]⟩

/-- Modelled from the claim wording: exactly four digits with an
optional trailing uppercase letter, subject to the two stated
exclusions. -/
def claimed_id_form (s : Chars) : Bool :=
  (match s with
   | a :: b :: c :: d :: rest =>
     a.isDigit && b.isDigit && c.isDigit && d.isDigit &&
       (match rest with
        | [] => true
        | [u] => u.isUpper
        | _ => false)
   | _ => false) &&
  !(decide (4 < s.length) && headIs '7' s) &&
  (!headIs '0' s || (("00".data).isPrefixOf s || ("01".data).isPrefixOf s ||
    ("02".data).isPrefixOf s))

/-- An attempt trace whose first attempt fails and second succeeds. -/
def attWitness : Nat → Except Unit Nat :=
  fun i => if i = 0 then .error () else .ok 7

/-- State after ingesting TWSE day dayA into the empty store. -/
def retagS1 : DB :=
  exGet (update_daily_twse_quotes dayA false [sampleTwseRow] emptyDB)

/-- State after the OTC sync of day dayB re-tags security 2330 to OTC. -/
def retagS2 : DB :=
  exGet (update_daily_otc_quotes dayB false [sampleOtcRow] retagS1)

/-- State after the forced TWSE replay of day dayA with an empty new
payload. -/
def retagS3 : DB :=
  exGet (update_daily_twse_quotes dayA true [] retagS2)

/-- The quote row written for 2330 by the first TWSE run of day dayA. -/
def q2330A : QuoteRow :=
  ⟨("2330".data), dayA, some ⟨600, 0⟩, some ⟨610, 0⟩, some ⟨590, 0⟩,
   some ⟨605, 0⟩, some 1000, some 500, some ⟨15, 1⟩, some 100⟩


/-! ## Structural lemmas about one sync run -/

theorem stock_upsert_quote (i n m : Chars) (d : Nat) (s : DB) :
    (stock_upsert i n m d s).quote = s.quote := by
  unfold stock_upsert
  split <;> rfl

theorem stock_upsert_stock_mem (i n m : Chars) (d : Nat) (s : DB) :
    ∀ r ∈ (stock_upsert i n m d s).stock, r ∈ s.stock ∨ r.maxdate = d := by
  intro r hr
  unfold stock_upsert at hr
  split at hr
  · simp only [List.mem_map] at hr
    obtain ⟨r0, hr0, hEq⟩ := hr
    by_cases hid : r0.id = i
    · right
      simp only [hid, if_pos] at hEq
      rw [← hEq]
    · left
      simp only [hid, if_neg, not_false_eq_true] at hEq
      rw [← hEq]
      exact hr0
  · simp only [List.mem_append, List.mem_singleton] at hr
    rcases hr with h | h
    · exact Or.inl h
    · right
      rw [h]

theorem quote_insert_ok (q : QuoteRow) (s s1 : DB)
    (h : quote_insert q s = .ok s1) :
    s1.stock = s.stock ∧ s1.quote = s.quote ++ [q] := by
  unfold quote_insert at h
  split at h
  · exact absurd h (by simp)
  · injection h with h
    rw [← h]
    exact ⟨rfl, rfl⟩

theorem upsert_marker_quote (m : Chars) (d count : Nat) (s : DB) :
    (upsert_market_marker m d count s).quote =
      (s.quote.filter fun q => !(decide (q.id = m) && decide (q.qdate = d))) ++
        [marker_quote_row m d count] := rfl

theorem upsert_marker_stock_mem (m : Chars) (d count : Nat) (s : DB) :
    ∀ r ∈ (upsert_market_marker m d count s).stock,
      r ∈ s.stock ∨ r.maxdate = d := by
  intro r hr
  unfold upsert_market_marker at hr
  simp only [List.mem_map] at hr
  obtain ⟨r0, hr0, hEq⟩ := hr
  have hr0m : r0 ∈ s.stock ∨ r0 = (⟨m, m, m, d, d⟩ : StockRow) := by
    split at hr0
    · exact Or.inl hr0
    · simpa using hr0
  by_cases hid : r0.id = m
  · right
    simp only [hid, if_pos] at hEq
    rw [← hEq]
  · simp only [hid, if_neg, not_false_eq_true] at hEq
    rcases hr0m with h | h
    · left
      rw [← hEq]
      exact h
    · exact absurd (by rw [h] : r0.id = m) hid

theorem retry3_const {ε α : Type} (x : Except ε α) :
    (retry3 fun _ => x).1 = x := by
  cases x <;> rfl

theorem ingest_rows_ok (parse : List Chars → Option Candidate) (market : Chars)
    (d : Nat) :
    ∀ (rows : List (List Chars)) (s : DB) (count : Nat) (s1 : DB) (n : Nat),
      ingest_rows parse market d rows s count = .ok (s1, n) →
      ∃ added : List QuoteRow,
        s1.quote = s.quote ++ added ∧
        n = count + added.length ∧
        (∀ q ∈ added, ∃ c r, r ∈ rows ∧ parse r = some c ∧
          q = candidate_quote_row c d) ∧
        (∀ r ∈ s1.stock, r ∈ s.stock ∨ r.maxdate = d) := by
  intro rows
  induction rows with
  | nil =>
    intro s count s1 n h
    simp only [ingest_rows] at h
    injection h with h
    injection h with h1 h2
    refine ⟨[], ?_, ?_, ?_, ?_⟩
    · rw [← h1]; simp
    · rw [← h2]; simp
    · intro q hq; exact absurd hq (by simp)
    · intro r hr; rw [← h1] at hr; exact Or.inl hr
  | cons r rest ih =>
    intro s count s1 n h
    cases hp : parse r with
    | none =>
      simp only [ingest_rows, hp] at h
      obtain ⟨added, h1, h2, h3, h4⟩ := ih s count s1 n h
      refine ⟨added, h1, h2, ?_, h4⟩
      intro q hq
      obtain ⟨c, r2, hr2, hpc, hq2⟩ := h3 q hq
      exact ⟨c, r2, List.mem_cons_of_mem _ hr2, hpc, hq2⟩
    | some c =>
      cases hins : quote_insert (candidate_quote_row c d) s with
      | error e =>
        simp only [ingest_rows, hp, hins] at h
        exact absurd h (by simp)
      | ok sA =>
        simp only [ingest_rows, hp, hins] at h
        obtain ⟨hstk, hqt⟩ := quote_insert_ok _ _ _ hins
        obtain ⟨added, h1, h2, h3, h4⟩ := ih _ _ _ _ h
        refine ⟨candidate_quote_row c d :: added, ?_, ?_, ?_, ?_⟩
        · rw [h1, stock_upsert_quote, hqt]
          simp
        · rw [h2]
          simp only [List.length_cons]
          omega
        · intro q hq
          rcases List.mem_cons.mp hq with hq | hq
          · exact ⟨c, r, List.mem_cons_self _ _, hp, hq⟩
          · obtain ⟨c2, r2, hr2, hpc, hq2⟩ := h3 q hq
            exact ⟨c2, r2, List.mem_cons_of_mem _ hr2, hpc, hq2⟩
        · intro rr hrr
          rcases h4 rr hrr with hin | hd
          · rcases stock_upsert_stock_mem _ _ _ _ _ rr hin with hin2 | hd2
            · rw [hstk] at hin2
              exact Or.inl hin2
            · exact Or.inr hd2
          · exact Or.inr hd

theorem force_branch_stock (force : Bool) (m : Chars) (d : Nat) (s : DB) :
    (if force then force_delete m d s else s).stock = s.stock := by
  cases force <;> rfl

theorem update_daily_ok_stock_mem (parse : List Chars → Option Candidate)
    (market : Chars) (d : Nat) (force : Bool) (rows : List (List Chars))
    (s s1 : DB) (h : update_daily parse market d force rows s = .ok s1) :
    ∀ r ∈ s1.stock, r ∈ s.stock ∨ r.maxdate = d := by
  unfold update_daily at h
  split at h
  · injection h with h
    rw [← h]
    intro r hr
    exact Or.inl hr
  · rw [retry3_const] at h
    unfold attempt_body at h
    cases hi : ingest_rows parse market d rows
        (if force then force_delete market d s else s) 0 with
    | error e =>
      rw [hi] at h
      exact absurd h (by simp)
    | ok p =>
      obtain ⟨sA, count⟩ := p
      rw [hi] at h
      injection h with h
      obtain ⟨added, _, _, _, h4⟩ := ingest_rows_ok parse market d rows _ 0 sA count hi
      intro r hr
      rw [← h] at hr
      rcases upsert_marker_stock_mem _ _ _ _ r hr with h2 | h2
      · rcases h4 r h2 with h3 | h3
        · rw [force_branch_stock] at h3
          exact Or.inl h3
        · exact Or.inr h3
      · exact Or.inr h2

theorem update_daily_ok_quote_structure
    (parse : List Chars → Option Candidate) (market : Chars)
    (hparse : ∀ r c, parse r = some c → is_id c.id = true)
    (hmid : is_id market = false)
    (d : Nat) (force : Bool) (rows : List (List Chars)) (s s1 : DB)
    (h : update_daily parse market d force rows s = .ok s1)
    (hm : force = true ∨ markerExists market d s = false) :
    ∃ added : List QuoteRow,
      s1.quote = (if force then force_delete market d s else s).quote ++ added ++
        [marker_quote_row market d added.length] ∧
      ∀ q ∈ added, q.qdate = d ∧ is_id q.id = true := by
  unfold update_daily at h
  split at h
  · rename_i hcond
    rcases hm with hf | hplain
    · rw [hf] at hcond
      simp at hcond
    · rw [hplain] at hcond
      simp at hcond
  · rw [retry3_const] at h
    unfold attempt_body at h
    cases hi : ingest_rows parse market d rows
        (if force then force_delete market d s else s) 0 with
    | error e =>
      rw [hi] at h
      exact absurd h (by simp)
    | ok p =>
      obtain ⟨sA, count⟩ := p
      rw [hi] at h
      injection h with h
      obtain ⟨added, h1, h2, h3, _⟩ := ingest_rows_ok parse market d rows _ 0 sA count hi
      have haddedProps : ∀ q ∈ added, q.qdate = d ∧ is_id q.id = true := by
        intro q hq
        obtain ⟨c, r2, _, hpc, hq2⟩ := h3 q hq
        constructor
        · rw [hq2]
          rfl
        · rw [hq2]
          exact hparse r2 c hpc
      refine ⟨added, ?_, haddedProps⟩
      rw [← h, upsert_marker_quote, h1, List.filter_append]
      have hbase : ((if force then force_delete market d s else s).quote.filter
          fun q => !(decide (q.id = market) && decide (q.qdate = d))) =
          (if force then force_delete market d s else s).quote := by
        apply List.filter_eq_self.mpr
        intro q hq
        cases force with
        | true =>
          simp only [if_pos] at hq
          unfold force_delete at hq
          simp only [List.mem_filter] at hq
          obtain ⟨_, hcondq⟩ := hq
          simp only [Bool.not_eq_true', Bool.and_eq_false_iff] at hcondq ⊢
          rcases hcondq with hcl | hcr
          · simp only [Bool.or_eq_false_iff] at hcl
            exact Or.inl (by simpa using hcl.2)
          · exact Or.inr hcr
        | false =>
          simp only [Bool.false_eq_true, if_false] at hq
          simp only [Bool.not_eq_true']
          rcases hm with hf | hplain
          · exact absurd hf (by simp)
          · unfold markerExists at hplain
            rw [List.any_eq_false] at hplain
            have := hplain q hq
            simp only [Bool.and_eq_true, decide_eq_true_eq, not_and] at this
            simp only [Bool.and_eq_false_iff, decide_eq_false_iff_not]
            by_cases hqid : q.id = market
            · exact Or.inr (this hqid)
            · exact Or.inl hqid
      have hadded : (added.filter
          fun q => !(decide (q.id = market) && decide (q.qdate = d))) = added := by
        apply List.filter_eq_self.mpr
        intro q hq
        have hq2 := (haddedProps q hq).2
        have hne : q.id ≠ market := by
          intro hEq
          rw [hEq, hmid] at hq2
          exact absurd hq2 (by simp)
        simp [hne]
      rw [hbase, hadded, h2]
      simp
theorem twse_parse_is_id : ∀ (r : List Chars) (c : Candidate),
    twse_parse_row r = some c → is_id c.id = true := by
  intro r c h
  unfold twse_parse_row at h
  split at h
  · exact Option.noConfusion h
  split at h
  · exact Option.noConfusion h
  rename_i hguard
  split at h
  all_goals try exact Option.noConfusion h
  split at h
  · exact Option.noConfusion h
  split at h
  all_goals try exact Option.noConfusion h
  split at h
  · exact Option.noConfusion h
  injection h with h
  rw [← h]
  simpa using hguard

theorem otc_parse_is_id : ∀ (r : List Chars) (c : Candidate),
    otc_parse_row r = some c → is_id c.id = true := by
  intro r c h
  unfold otc_parse_row at h
  split at h
  · exact Option.noConfusion h
  split at h
  · exact Option.noConfusion h
  rename_i hguard
  split at h
  all_goals try exact Option.noConfusion h
  split at h
  · exact Option.noConfusion h
  split at h
  · exact Option.noConfusion h
  injection h with h
  rw [← h]
  simpa using hguard

theorem twse_marker_not_id : is_id ("TWSE".data) = false := by decide

theorem otc_marker_not_id : is_id ("OTC".data) = false := by decide

/-! ## Lemmas about the SQL MAX aggregate -/

theorem listMax_eq_none_iff (l : List Nat) : listMax l = none ↔ l = [] := by
  cases l with
  | nil => simp [listMax]
  | cons d ds => simp [listMax]

theorem listMax_spec : ∀ (l : List Nat) (m : Nat), listMax l = some m →
    m ∈ l ∧ ∀ x ∈ l, x ≤ m := by
  intro l
  induction l with
  | nil =>
    intro m h
    simp [listMax] at h
  | cons d ds ih =>
    intro m h
    cases hds : listMax ds with
    | none =>
      have hempty : ds = [] := (listMax_eq_none_iff ds).mp hds
      subst hempty
      simp only [listMax] at h
      injection h with h
      constructor
      · rw [← h]
        exact List.mem_singleton_self d
      · intro x hx
        rw [List.mem_singleton] at hx
        rw [hx, ← h]
    | some m2 =>
      simp only [listMax, hds] at h
      injection h with h
      obtain ⟨hmem, hub⟩ := ih m2 hds
      constructor
      · rw [← h]
        rcases Nat.le_total d m2 with hle | hle
        · rw [Nat.max_eq_right hle]
          exact List.mem_cons_of_mem d hmem
        · rw [Nat.max_eq_left hle]
          exact List.mem_cons_self d ds
      · intro x hx
        rcases List.mem_cons.mp hx with hx | hx
        · rw [hx, ← h]
          exact Nat.le_max_left d m2
        · rw [← h]
          exact le_trans (hub x hx) (Nat.le_max_right d m2)
theorem walk_from_mem (tf og : Nat) :
    ∀ (fuel cur : Nat) (m : Chars) (d : Nat),
      (m, d) ∈ walk_from tf og cur fuel ↔
        (cur ≤ d ∧ d < cur + fuel ∧
          ((m = ("TWSE".data) ∧ tf ≤ d) ∨ (m = ("OTC".data) ∧ og ≤ d))) := by
  intro fuel
  induction fuel with
  | zero =>
    intro cur m d
    simp only [walk_from, List.not_mem_nil, false_iff]
    intro hc
    omega
  | succ fuel ih =>
    intro cur m d
    have hT : ((m, d) ∈ if tf ≤ cur then [(("TWSE".data : Chars), cur)]
        else ([] : List (Chars × Nat))) ↔
        (tf ≤ cur ∧ m = ("TWSE".data) ∧ d = cur) := by
      split <;> rename_i hc <;> simp [Prod.ext_iff, hc]
    have hO : ((m, d) ∈ if og ≤ cur then [(("OTC".data : Chars), cur)]
        else ([] : List (Chars × Nat))) ↔
        (og ≤ cur ∧ m = ("OTC".data) ∧ d = cur) := by
      split <;> rename_i hc <;> simp [Prod.ext_iff, hc]
    simp only [walk_from, List.mem_append, hT, hO, ih]
    constructor
    · rintro ((⟨h1, h2, h3⟩ | ⟨h1, h2, h3⟩) | ⟨h1, h2, h3⟩)
      · exact ⟨by omega, by omega, Or.inl ⟨h2, by omega⟩⟩
      · exact ⟨by omega, by omega, Or.inr ⟨h2, by omega⟩⟩
      · exact ⟨by omega, by omega, h3⟩
    · rintro ⟨h1, h2, h3⟩
      by_cases hd : d = cur
      · subst hd
        rcases h3 with ⟨hm, htf⟩ | ⟨hm, hog⟩
        · exact Or.inl (Or.inl ⟨by omega, hm, rfl⟩)
        · exact Or.inl (Or.inr ⟨by omega, hm, rfl⟩)
      · exact Or.inr ⟨by omega, by omega, h3⟩

theorem walk_from_lb (tf og : Nat) (fuel cur : Nat) :
    ∀ e ∈ walk_from tf og cur fuel, cur ≤ e.2 := by
  intro e he
  obtain ⟨m, d⟩ := e
  exact ((walk_from_mem tf og fuel cur m d).mp he).1

theorem walk_from_dates_sorted (tf og : Nat) :
    ∀ (fuel cur : Nat),
      List.Pairwise (fun a b : Chars × Nat => a.2 ≤ b.2)
        (walk_from tf og cur fuel) := by
  intro fuel
  induction fuel with
  | zero =>
    intro cur
    simp [walk_from]
  | succ fuel ih =>
    intro cur
    have hcurT : ∀ e ∈ (if tf ≤ cur then [(("TWSE".data : Chars), cur)]
        else ([] : List (Chars × Nat))), e.2 = cur := by
      split <;> simp
    have hcurO : ∀ e ∈ (if og ≤ cur then [(("OTC".data : Chars), cur)]
        else ([] : List (Chars × Nat))), e.2 = cur := by
      split <;> simp
    have hpT : List.Pairwise (fun a b : Chars × Nat => a.2 ≤ b.2)
        (if tf ≤ cur then [(("TWSE".data : Chars), cur)]
         else ([] : List (Chars × Nat))) := by
      split <;> simp
    have hpO : List.Pairwise (fun a b : Chars × Nat => a.2 ≤ b.2)
        (if og ≤ cur then [(("OTC".data : Chars), cur)]
         else ([] : List (Chars × Nat))) := by
      split <;> simp
    simp only [walk_from]
    rw [List.pairwise_append]
    refine ⟨?_, ih (cur + 1), ?_⟩
    · rw [List.pairwise_append]
      refine ⟨hpT, hpO, ?_⟩
      intro a ha b hb
      have h1 := hcurT a ha
      have h2 := hcurO b hb
      omega
    · intro a ha b hb
      have h2 := walk_from_lb tf og fuel (cur + 1) b hb
      rcases List.mem_append.mp ha with ha | ha
      · have h1 := hcurT a ha
        omega
      · have h1 := hcurO a ha
        omega

theorem walk_from_market_sorted (tf og : Nat) (mk : Chars) :
    ∀ (fuel cur : Nat),
      List.Pairwise (fun a b : Chars × Nat => a.2 < b.2)
        ((walk_from tf og cur fuel).filter fun e => decide (e.1 = mk)) := by
  intro fuel
  induction fuel with
  | zero =>
    intro cur
    simp [walk_from]
  | succ fuel ih =>
    intro cur
    have hrecLb : ∀ e ∈ (walk_from tf og (cur + 1) fuel).filter
        (fun e => decide (e.1 = mk)), cur + 1 ≤ e.2 := by
      intro e he
      exact walk_from_lb tf og fuel (cur + 1) e (List.mem_filter.mp he).1
    have hTcur : ∀ e ∈ ((if tf ≤ cur then [(("TWSE".data : Chars), cur)]
        else ([] : List (Chars × Nat))).filter fun e => decide (e.1 = mk)),
        e.2 = cur := by
      intro e he
      have h1 := (List.mem_filter.mp he).1
      split at h1
      · rw [List.mem_singleton] at h1
        rw [h1]
      · exact absurd h1 (List.not_mem_nil e)
    have hOcur : ∀ e ∈ ((if og ≤ cur then [(("OTC".data : Chars), cur)]
        else ([] : List (Chars × Nat))).filter fun e => decide (e.1 = mk)),
        e.2 = cur := by
      intro e he
      have h1 := (List.mem_filter.mp he).1
      split at h1
      · rw [List.mem_singleton] at h1
        rw [h1]
      · exact absurd h1 (List.not_mem_nil e)
    simp only [walk_from, List.filter_append]
    by_cases hmkT : ("TWSE".data : Chars) = mk <;>
      by_cases hmkO : ("OTC".data : Chars) = mk
    · exact absurd (hmkT.trans hmkO.symm) (by decide)
    · have hO0 : ((if og ≤ cur then [(("OTC".data : Chars), cur)]
          else ([] : List (Chars × Nat))).filter fun e => decide (e.1 = mk)) = [] := by
        split <;> simp [hmkO]
      rw [hO0, List.append_nil, List.pairwise_append]
      refine ⟨?_, ih (cur + 1), ?_⟩
      · exact List.Pairwise.sublist (List.filter_sublist _) (by split <;> simp)
      · intro a ha b hb
        have h1 := hTcur a ha
        have h2 := hrecLb b hb
        omega
    · have hT0 : ((if tf ≤ cur then [(("TWSE".data : Chars), cur)]
          else ([] : List (Chars × Nat))).filter fun e => decide (e.1 = mk)) = [] := by
        split <;> simp [hmkT]
      rw [hT0, List.nil_append, List.pairwise_append]
      refine ⟨?_, ih (cur + 1), ?_⟩
      · exact List.Pairwise.sublist (List.filter_sublist _) (by split <;> simp)
      · intro a ha b hb
        have h1 := hOcur a ha
        have h2 := hrecLb b hb
        omega
    · have hT0 : ((if tf ≤ cur then [(("TWSE".data : Chars), cur)]
          else ([] : List (Chars × Nat))).filter fun e => decide (e.1 = mk)) = [] := by
        split <;> simp [hmkT]
      have hO0 : ((if og ≤ cur then [(("OTC".data : Chars), cur)]
          else ([] : List (Chars × Nat))).filter fun e => decide (e.1 = mk)) = [] := by
        split <;> simp [hmkO]
      rw [hT0, hO0, List.nil_append, List.nil_append]
      exact ih (cur + 1)

/-! ## Length preservation of the ORDER BY sort -/

theorem insertSorted_length (r : ViewRow) :
    ∀ l : List ViewRow, (insertSorted r l).length = l.length + 1 := by
  intro l
  induction l with
  | nil => rfl
  | cons x xs ih =>
    simp only [insertSorted]
    split
    · simp
    · simp only [List.length_cons, ih]

theorem sortByID_length : ∀ l : List ViewRow, (sortByID l).length = l.length := by
  intro l
  induction l with
  | nil => rfl
  | cons x xs ih =>
    simp only [sortByID, List.foldr_cons] at ih ⊢
    rw [insertSorted_length, ih, List.length_cons]

/-! ## The claims -/

/-- C1: for every market and date, a second invocation of that market's
single-day sync with force false, in any state where a market-marker
quote row already exists for (market, date), returns immediately without
performing any database write: the resulting state is exactly the state
left by the first invocation.  Each market needs only its own marker. -/
theorem second_run_is_noop (d : Nat) (rows : List (List Chars)) (s : DB) :
    (markerExists ("TWSE".data) d s = true →
      update_daily_twse_quotes d false rows s = .ok s) ∧
    (markerExists ("OTC".data) d s = true →
      update_daily_otc_quotes d false rows s = .ok s) := by
  constructor
  · intro hT
    unfold update_daily_twse_quotes update_daily
    rw [hT]
    simp
  · intro hO
    unfold update_daily_otc_quotes update_daily
    rw [hO]
    simp

/-- Witness for C1: rerunning the TWSE sync of day dayB on the store
cexS1 — produced by that very sync from the empty store, so it carries
only the TWSE marker — is a no-op, and likewise an OTC rerun where the
OTC marker exists. -/
theorem second_run_is_noop_witness :
    update_daily_twse_quotes dayB false [sampleTwseRow] cexS1 = .ok cexS1 ∧
    update_daily_otc_quotes 5 false [] markerOnlyDB = .ok markerOnlyDB :=
  ⟨(second_run_is_noop dayB [sampleTwseRow] cexS1).1 (by decide),
   (second_run_is_noop 5 [] markerOnlyDB).2 (by decide)⟩

/-- C2: the next-pending date of a market is the fixed epoch QUOTE_EPOCH
when the marker id has no quote row, and otherwise the greatest quote
date recorded for the marker id plus one day; next_from is a pure
function of the store, so resolving it performs no write. -/
theorem next_pending_date_characterization (i : Chars) (s : DB) :
    ((∀ q ∈ s.quote, q.id ≠ i) → next_from i s = QUOTE_EPOCH) ∧
    (∀ d : Nat, (∃ q ∈ s.quote, q.id = i ∧ q.qdate = d) →
      (∀ q ∈ s.quote, q.id = i → q.qdate ≤ d) → next_from i s = d + 1) := by
  constructor
  · intro hnone
    have hnil : (s.quote.filter fun q => decide (q.id = i)) = [] := by
      rw [List.filter_eq_nil_iff]
      intro q hq
      simp [hnone q hq]
    unfold next_from sql_max_date
    rw [hnil]
    rfl
  · intro d hex hub
    obtain ⟨q0, hq0, hid0, hd0⟩ := hex
    have hdL : d ∈ (s.quote.filter fun q => decide (q.id = i)).map (·.qdate) := by
      rw [List.mem_map]
      refine ⟨q0, ?_, hd0⟩
      rw [List.mem_filter]
      exact ⟨hq0, by simp [hid0]⟩
    have hubL : ∀ x ∈ (s.quote.filter fun q => decide (q.id = i)).map (·.qdate),
        x ≤ d := by
      intro x hx
      rw [List.mem_map] at hx
      obtain ⟨q, hq, hxq⟩ := hx
      rw [List.mem_filter] at hq
      rw [← hxq]
      exact hub q hq.1 (by simpa using hq.2)
    cases hm : listMax ((s.quote.filter fun q => decide (q.id = i)).map (·.qdate)) with
    | none =>
      rw [listMax_eq_none_iff] at hm
      rw [hm] at hdL
      exact absurd hdL (List.not_mem_nil d)
    | some m =>
      obtain ⟨hmem, hub2⟩ := listMax_spec _ m hm
      have hmd : m = d := le_antisymm (hubL m hmem) (hub2 d hdL)
      unfold next_from sql_max_date
      rw [hm, hmd]

/-- Witness for C2: the empty store resolves to the epoch, and a store
whose TWSE marker rows reach day 12 resolves to day 13. -/
theorem next_pending_date_characterization_witness :
    next_from ("TWSE".data) emptyDB = QUOTE_EPOCH ∧
    next_from ("TWSE".data) twoMarkerDB = 12 + 1 :=
  ⟨(next_pending_date_characterization ("TWSE".data) emptyDB).1 (by simp [emptyDB]),
   (next_pending_date_characterization ("TWSE".data) twoMarkerDB).2 12
     ⟨marker_quote_row ("TWSE".data) 12 3, by decide, by decide, by decide⟩
     (by decide)⟩

/-- C3 counterexample: after syncing TWSE day dayB, security 2330 holds
maxdate dayB; a forced re-ingestion of the older day dayA then rewrites
maxdate to dayA < dayB, moving the observed range backward, contrary to
the claim. -/
theorem maxdate_backward_counterexample :
    update_daily_twse_quotes dayB false [sampleTwseRow] emptyDB = .ok cexS1 ∧
    stockMaxdate ("2330".data) cexS1 = some dayB ∧
    update_daily_twse_quotes dayA true [sampleTwseRow] cexS1 = .ok cexS2 ∧
    stockMaxdate ("2330".data) cexS2 = some dayA ∧
    dayA < dayB := by decide

/-- C3 amended: a successful single-day sync leaves every stock row
either untouched or with maxdate rewritten to the ingested date; hence
under a primary-key-consistent stock table, whenever the ingested date
is at least the current maxdate of a row (true throughout the ascending
orchestrator), the maxdate of that id never decreases — while a forced
re-ingestion of an older date moves it backward to that date. -/
theorem stock_maxdate_amended (parse : List Chars → Option Candidate)
    (market : Chars) (d : Nat) (force : Bool) (rows : List (List Chars))
    (s s1 : DB) (h : update_daily parse market d force rows s = .ok s1) :
    (∀ r ∈ s1.stock, r ∈ s.stock ∨ r.maxdate = d) ∧
    ((s.stock.map (·.id)).Nodup →
      ∀ r ∈ s.stock, r.maxdate ≤ d →
        ∀ r2 ∈ s1.stock, r2.id = r.id → r.maxdate ≤ r2.maxdate) := by
  have hmem := update_daily_ok_stock_mem parse market d force rows s s1 h
  refine ⟨hmem, ?_⟩
  intro hnd r hr hle r2 hr2 hid
  rcases hmem r2 hr2 with hin | hd2
  · have heq : r2 = r := List.inj_on_of_nodup_map hnd hin hr (by rw [hid])
    rw [heq]
  · rw [hd2]
    exact hle

/-- Witness for C3 amended: the TWSE marker row advances from dayB to
dayB + 1 across an empty-payload sync of the later day. -/
theorem stock_maxdate_amended_witness :
    markerRowB.maxdate ≤ markerRowB2.maxdate :=
  (stock_maxdate_amended twse_parse_row ("TWSE".data) (dayB + 1) false []
      cexS1 cexS3 (by decide)).2 (by decide) markerRowB (by decide) (by decide)
    markerRowB2 (by decide) (by decide)

/-- C4 counterexample: the second sample row of the claim lists only ten
fields, so the TWSE validator rejects it (rows with fewer than 11 fields
are skipped) instead of accepting it with delta 1.5. -/
theorem twse_second_sample_row_rejected :
    twse_parse_row claimShortRow = none ∧ claimShortRow.length = 10 := by
  decide

/-- C4 amended: the first sample row (volume field 0) is rejected; the
second sample row is also rejected because it has only ten fields; its
eleven-field form, with the omitted sign column restored before the
delta column, is accepted producing a candidate with delta = 1.5. -/
theorem twse_sample_rows_amended :
    twse_parse_row claimRejectRow = none ∧
    twse_parse_row sampleTwseRow = some sampleTwseCandidate ∧
    sampleTwseCandidate.delta = some ⟨15, 1⟩ := by
  decide

/-- C5 counterexample: is_id accepts "123", which is not of the claimed
form (exactly 4 digits with an optional trailing uppercase letter), so
the predicate does not accept exactly the claimed set. -/
theorem is_id_not_four_digit_form :
    is_id ("123".data) = true ∧ claimed_id_form ("123".data) = false := by
  decide

/-- C5 amended: is_id accepts exactly the ids that start with a digit
(the prefix-match semantics of the unanchored regex), subject to the two
exclusions: ids longer than 4 characters starting with 7 are rejected,
and ids starting with 0 are accepted only when they start with 00, 01 or
02; in particular "2330" and "00050" are accepted while "7011A" and "03"
are rejected. -/
theorem is_id_characterization :
    (∀ s : Chars, is_id s = true ↔
      ((∃ c cs, s = c :: cs ∧ c.isDigit = true) ∧
        ¬(4 < s.length ∧ headIs '7' s = true) ∧
        (headIs '0' s = true →
          ("00".data).isPrefixOf s = true ∨ ("01".data).isPrefixOf s = true ∨
            ("02".data).isPrefixOf s = true))) ∧
    is_id ("2330".data) = true ∧ is_id ("00050".data) = true ∧
    is_id ("7011A".data) = false ∧ is_id ("03".data) = false := by
  refine ⟨?_, by decide, by decide, by decide, by decide⟩
  intro s
  cases s with
  | nil => simp [is_id]
  | cons c cs =>
    unfold is_id matchIdPrefix
    simp only [List.length_cons, Nat.succ_ne_zero, if_false]
    by_cases hd : c.isDigit
    · simp only [hd, Bool.not_true, Bool.false_eq_true, if_false]
      by_cases h7 : (decide (4 < cs.length + 1) && headIs '7' (c :: cs)) = true
      · simp only [h7, if_true]
        simp only [Bool.and_eq_true, decide_eq_true_eq] at h7
        simp [h7.1, h7.2, hd]
      · simp only [Bool.not_eq_true] at h7
        simp only [h7, Bool.false_eq_true, if_false]
        have h7p : ¬(4 < cs.length + 1 ∧ headIs '7' (c :: cs) = true) := by
          intro hab
          rw [hab.2] at h7
          simp only [Bool.and_true, decide_eq_false_iff_not] at h7
          exact h7 hab.1
        by_cases h0 : headIs '0' (c :: cs) = true
        · simp only [h0, Bool.not_true, Bool.false_eq_true, if_false]
          simp [hd, h7p, h0]
          exact or_assoc
        · simp only [Bool.not_eq_true] at h0
          simp only [h0, Bool.not_false, if_true]
          simp [hd, h7p, h0]
    · simp only [Bool.not_eq_true] at hd
      simp only [hd, Bool.not_false, if_true]
      simp [hd]

/-- Witness for C5 on the concrete id "2330". -/
theorem is_id_characterization_witness :
    (∃ c cs, ("2330".data : Chars) = c :: cs ∧ c.isDigit = true) ∧
    ¬(4 < ("2330".data : Chars).length ∧ headIs '7' ("2330".data) = true) ∧
    (headIs '0' ("2330".data) = true →
      ("00".data).isPrefixOf ("2330".data) = true ∨
        ("01".data).isPrefixOf ("2330".data) = true ∨
        ("02".data).isPrefixOf ("2330".data) = true) :=
  (is_id_characterization.1 ("2330".data)).mp (by decide)

/-- The marker probe succeeds on the state left by the marker upsert. -/
theorem marker_exists_after_upsert (m : Chars) (d count : Nat) (s : DB) :
    markerExists m d (upsert_market_marker m d count s) = true := by
  unfold markerExists
  rw [upsert_marker_quote, List.any_append]
  have hone : (([marker_quote_row m d count].any
      fun q => decide (q.id = m) && decide (q.qdate = d))) = true := by
    simp [marker_quote_row]
  rw [hone, Bool.or_true]

/-- Every successful single-day sync leaves a marker quote row at
(market, date). -/
theorem update_daily_ok_marker (parse : List Chars → Option Candidate)
    (market : Chars) (d : Nat) (force : Bool) (rows : List (List Chars))
    (s s1 : DB) (h : update_daily parse market d force rows s = .ok s1) :
    markerExists market d s1 = true := by
  unfold update_daily at h
  split at h
  · rename_i hc
    injection h with h
    rw [← h]
    simp only [Bool.and_eq_true] at hc
    exact hc.1
  · rw [retry3_const] at h
    unfold attempt_body at h
    cases hi : ingest_rows parse market d rows
        (if force then force_delete market d s else s) 0 with
    | error e =>
      rw [hi] at h
      exact absurd h (by simp)
    | ok p =>
      obtain ⟨sA, count⟩ := p
      rw [hi] at h
      injection h with h
      rw [← h]
      exact marker_exists_after_upsert market d count sA

/-- C6: after every successful single-day sync for (market, date) a
market-marker quote row exists at (market, date); when the run performs
ingestion (force, or no marker yet), the committed state is the prior
(possibly force-cleared) quote table extended with exactly the inserted
security quote rows of that date followed by the marker row whose volume
field equals the number of those inserted rows.  Marker and data appear
only together in the one committed state, the embedding of the shared
per-day transaction, so the watermark is never committed ahead of its
data. -/
theorem marker_records_inserted_count (d : Nat) (rows : List (List Chars))
    (s s1 : DB) :
    (∀ force : Bool, update_daily_twse_quotes d force rows s = .ok s1 →
      markerExists ("TWSE".data) d s1 = true) ∧
    (∀ force : Bool, update_daily_otc_quotes d force rows s = .ok s1 →
      markerExists ("OTC".data) d s1 = true) ∧
    (∀ force : Bool, update_daily_twse_quotes d force rows s = .ok s1 →
      force = true ∨ markerExists ("TWSE".data) d s = false →
      ∃ added : List QuoteRow,
        s1.quote = (if force then (force_delete ("TWSE".data) d s).quote
            else s.quote) ++ added ++
          [marker_quote_row ("TWSE".data) d added.length] ∧
        ∀ q ∈ added, q.qdate = d ∧ is_id q.id = true) ∧
    (∀ force : Bool, update_daily_otc_quotes d force rows s = .ok s1 →
      force = true ∨ markerExists ("OTC".data) d s = false →
      ∃ added : List QuoteRow,
        s1.quote = (if force then (force_delete ("OTC".data) d s).quote
            else s.quote) ++ added ++
          [marker_quote_row ("OTC".data) d added.length] ∧
        ∀ q ∈ added, q.qdate = d ∧ is_id q.id = true) := by
  refine ⟨?_, ?_, ?_, ?_⟩
  · intro force h
    exact update_daily_ok_marker twse_parse_row ("TWSE".data) d force rows s s1 h
  · intro force h
    exact update_daily_ok_marker otc_parse_row ("OTC".data) d force rows s s1 h
  · intro force h hm
    obtain ⟨added, h1, h2⟩ := update_daily_ok_quote_structure twse_parse_row
      ("TWSE".data) twse_parse_is_id twse_marker_not_id d force rows s s1 h hm
    refine ⟨added, ?_, h2⟩
    rw [h1]
    cases force <;> rfl
  · intro force h hm
    obtain ⟨added, h1, h2⟩ := update_daily_ok_quote_structure otc_parse_row
      ("OTC".data) otc_parse_is_id otc_marker_not_id d force rows s s1 h hm
    refine ⟨added, ?_, h2⟩
    rw [h1]
    cases force <;> rfl

/-- Witness for C6: the concrete TWSE run of day dayB from the empty
store. -/
theorem marker_records_inserted_count_witness :
    markerExists ("TWSE".data) dayB cexS1 = true ∧
    ∃ added : List QuoteRow,
      cexS1.quote = (if false then (force_delete ("TWSE".data) dayB emptyDB).quote
          else emptyDB.quote) ++ added ++
        [marker_quote_row ("TWSE".data) dayB added.length] ∧
      ∀ q ∈ added, q.qdate = dayB ∧ is_id q.id = true :=
  ⟨(marker_records_inserted_count dayB [sampleTwseRow] emptyDB cexS1).1 false
      (by decide),
   (marker_records_inserted_count dayB [sampleTwseRow] emptyDB cexS1).2.2.1 false
      (by decide) (Or.inr (by decide))⟩

/-- C7: the bounded retry loop makes at most three attempts (its result
depends only on the outcomes of attempts 0, 1 and 2); a successful
attempt ends the loop at once with its result; the exception of a failed
attempt 1 or 2 is logged and the whole sequence retried; and a failure
of the third attempt is re-raised as the final outcome after logging. -/
theorem retry_policy {ε α : Type} (att : Nat → Except ε α) :
    (∀ att2 : Nat → Except ε α, (∀ i, i < 3 → att i = att2 i) →
      retry3 att = retry3 att2) ∧
    (∀ a, att 0 = .ok a → retry3 att = (.ok a, [])) ∧
    (∀ e a, att 0 = .error e → att 1 = .ok a → retry3 att = (.ok a, [e])) ∧
    (∀ e e2 a, att 0 = .error e → att 1 = .error e2 → att 2 = .ok a →
      retry3 att = (.ok a, [e, e2])) ∧
    (∀ e e2 e3, att 0 = .error e → att 1 = .error e2 → att 2 = .error e3 →
      retry3 att = (.error e3, [e, e2, e3])) := by
  refine ⟨?_, ?_, ?_, ?_, ?_⟩
  · intro att2 hag
    unfold retry3
    rw [hag 0 (by omega), hag 1 (by omega), hag 2 (by omega)]
  · intro a h0
    unfold retry3
    rw [h0]
  · intro e a h0 h1
    unfold retry3
    rw [h0, h1]
  · intro e e2 a h0 h1 h2
    unfold retry3
    rw [h0, h1, h2]
  · intro e e2 e3 h0 h1 h2
    unfold retry3
    rw [h0, h1, h2]

/-- Witness for C7: the first failure is logged and the second attempt
ends the loop. -/
theorem retry_policy_witness : retry3 attWitness = (.ok 7, [()]) :=
  (retry_policy attWitness).2.2.1 () 7 rfl rfl

/-- Membership in the quote table after the forced DELETE: a prior row
survives exactly when it is not at the replayed date with the marker id
or an id currently tagged with the market. -/
theorem force_delete_mem (mk : Chars) (d : Nat) (s : DB) (q : QuoteRow)
    (hq : q ∈ s.quote) :
    q ∈ (force_delete mk d s).quote ↔
      ¬(q.qdate = d ∧ (q.id = mk ∨ taggedWith mk q.id s = true)) := by
  unfold force_delete
  rw [List.mem_filter]
  simp only [hq, true_and]
  simp only [Bool.not_eq_true', Bool.and_eq_false_iff, Bool.or_eq_false_iff,
    decide_eq_false_iff_not]
  constructor
  · rintro (⟨htag, hid⟩ | hdq) ⟨hd2, hor⟩
    · rcases hor with h | h
      · exact hid h
      · rw [htag] at h
        exact Bool.false_ne_true h
    · exact hdq hd2
  · intro hn
    by_cases hdq : q.qdate = d
    · left
      constructor
      · by_cases ht : taggedWith mk q.id s = true
        · exact absurd ⟨hdq, Or.inr ht⟩ hn
        · exact Bool.not_eq_true _ ▸ ht
      · intro hid
        exact hn ⟨hdq, Or.inl hid⟩
    · exact Or.inr hdq

/-- C8 amended: a successful forced single-day sync first deletes
exactly the quote rows at the replayed date whose id is the market
marker or an id currently tagged with that market, then appends the
freshly inserted rows of that date and the marker row; quote rows at any
other date, and rows whose id is neither the marker nor currently tagged
with the market, survive unchanged.  Full replacement of the prior run
therefore holds only for rows whose securities are still tagged with the
market: a stale row whose security was re-tagged to the other market in
between survives (the known re-tagging edge case). -/
theorem force_replace_structure (d : Nat) (rows : List (List Chars))
    (s s1 : DB) :
    (update_daily_twse_quotes d true rows s = .ok s1 →
      (∃ added : List QuoteRow,
        s1.quote = (force_delete ("TWSE".data) d s).quote ++ added ++
          [marker_quote_row ("TWSE".data) d added.length] ∧
        ∀ q ∈ added, q.qdate = d ∧ is_id q.id = true) ∧
      (∀ q ∈ s.quote, q ∈ (force_delete ("TWSE".data) d s).quote ↔
        ¬(q.qdate = d ∧ (q.id = ("TWSE".data) ∨
          taggedWith ("TWSE".data) q.id s = true))) ∧
      (∀ q ∈ s.quote, q.qdate ≠ d → q ∈ s1.quote)) ∧
    (update_daily_otc_quotes d true rows s = .ok s1 →
      (∃ added : List QuoteRow,
        s1.quote = (force_delete ("OTC".data) d s).quote ++ added ++
          [marker_quote_row ("OTC".data) d added.length] ∧
        ∀ q ∈ added, q.qdate = d ∧ is_id q.id = true) ∧
      (∀ q ∈ s.quote, q ∈ (force_delete ("OTC".data) d s).quote ↔
        ¬(q.qdate = d ∧ (q.id = ("OTC".data) ∨
          taggedWith ("OTC".data) q.id s = true))) ∧
      (∀ q ∈ s.quote, q.qdate ≠ d → q ∈ s1.quote)) := by
  constructor
  · intro h
    obtain ⟨added, h1, h2⟩ := update_daily_ok_quote_structure twse_parse_row
      ("TWSE".data) twse_parse_is_id twse_marker_not_id d true rows s s1 h
      (Or.inl rfl)
    have h1s : s1.quote = (force_delete ("TWSE".data) d s).quote ++ added ++
        [marker_quote_row ("TWSE".data) d added.length] := by simpa using h1
    refine ⟨⟨added, h1s, h2⟩, fun q hq => force_delete_mem _ d s q hq, ?_⟩
    intro q hq hnd
    have hmem : q ∈ (force_delete ("TWSE".data) d s).quote :=
      (force_delete_mem _ d s q hq).mpr (fun hc => hnd hc.1)
    rw [h1s]
    exact List.mem_append_left _ (List.mem_append_left _ hmem)
  · intro h
    obtain ⟨added, h1, h2⟩ := update_daily_ok_quote_structure otc_parse_row
      ("OTC".data) otc_parse_is_id otc_marker_not_id d true rows s s1 h
      (Or.inl rfl)
    have h1s : s1.quote = (force_delete ("OTC".data) d s).quote ++ added ++
        [marker_quote_row ("OTC".data) d added.length] := by simpa using h1
    refine ⟨⟨added, h1s, h2⟩, fun q hq => force_delete_mem _ d s q hq, ?_⟩
    intro q hq hnd
    have hmem : q ∈ (force_delete ("OTC".data) d s).quote :=
      (force_delete_mem _ d s q hq).mpr (fun hc => hnd hc.1)
    rw [h1s]
    exact List.mem_append_left _ (List.mem_append_left _ hmem)

/-- C8 counterexample: security 2330 is ingested for TWSE at day dayA,
then re-tagged to OTC by an OTC sync of day dayB; the forced TWSE
replacement of day dayA with a different (empty) payload leaves the
stale 2330 row of the prior TWSE run in place, because the delete keys
on the current market tag — so a row of the prior run of (TWSE, dayA)
survives, contrary to the claim. -/
theorem stale_row_survives_counterexample :
    update_daily_twse_quotes dayA false [sampleTwseRow] emptyDB = .ok retagS1 ∧
    q2330A ∈ retagS1.quote ∧
    update_daily_otc_quotes dayB false [sampleOtcRow] retagS1 = .ok retagS2 ∧
    taggedWith ("OTC".data) ("2330".data) retagS2 = true ∧
    update_daily_twse_quotes dayA true [] retagS2 = .ok retagS3 ∧
    q2330A ∈ retagS3.quote := by
  decide

/-- Witness for C8 on the concrete forced replay of day dayA. -/
theorem force_replace_structure_witness :
    ∃ added : List QuoteRow,
      retagS3.quote = (force_delete ("TWSE".data) dayA retagS2).quote ++ added ++
        [marker_quote_row ("TWSE".data) dayA added.length] ∧
      ∀ q ∈ added, q.qdate = dayA ∧ is_id q.id = true :=
  ((force_replace_structure dayA [] retagS2 retagS3).1 (by decide)).1

/-- C9: continue_update_quotes computes the effective today as the
current date when the local hour is 15 or later and as the previous day
otherwise, and then schedules a single-day sync of a market for exactly
the dates lying between the next-pending date of that market and the
effective today, walking dates in ascending order — strictly ascending
within each market — starting from the earlier of the two next-pending
dates. -/
theorem continue_sync_schedule (nowDate nowHour : Nat) (s : DB) :
    (15 ≤ nowHour → effective_today nowDate nowHour = nowDate) ∧
    (nowHour < 15 → effective_today nowDate nowHour = nowDate - 1) ∧
    (∀ d : Nat, (("TWSE".data, d) ∈ continue_update_quotes nowDate nowHour s ↔
      next_from ("TWSE".data) s ≤ d ∧ d ≤ effective_today nowDate nowHour)) ∧
    (∀ d : Nat, (("OTC".data, d) ∈ continue_update_quotes nowDate nowHour s ↔
      next_from ("OTC".data) s ≤ d ∧ d ≤ effective_today nowDate nowHour)) ∧
    List.Pairwise (fun a b : Chars × Nat => a.2 ≤ b.2)
      (continue_update_quotes nowDate nowHour s) ∧
    (∀ mk : Chars, List.Pairwise (fun a b : Chars × Nat => a.2 < b.2)
      ((continue_update_quotes nowDate nowHour s).filter
        fun e => decide (e.1 = mk))) := by
  refine ⟨?_, ?_, ?_, ?_, ?_, ?_⟩
  · intro h
    unfold effective_today
    rw [if_neg (by omega)]
  · intro h
    unfold effective_today
    rw [if_pos h]
  · intro d
    unfold continue_update_quotes
    rw [walk_from_mem]
    constructor
    · rintro ⟨h1, h2, h3⟩
      rcases h3 with ⟨_, htf⟩ | ⟨hm, _⟩
      · exact ⟨htf, by omega⟩
      · exact absurd hm (by decide)
    · rintro ⟨h1, h2⟩
      refine ⟨by omega, by omega, Or.inl ⟨rfl, h1⟩⟩
  · intro d
    unfold continue_update_quotes
    rw [walk_from_mem]
    constructor
    · rintro ⟨h1, h2, h3⟩
      rcases h3 with ⟨hm, _⟩ | ⟨_, hog⟩
      · exact absurd hm (by decide)
      · exact ⟨hog, by omega⟩
    · rintro ⟨h1, h2⟩
      refine ⟨by omega, by omega, Or.inr ⟨rfl, h1⟩⟩
  · unfold continue_update_quotes
    exact walk_from_dates_sorted _ _ _ _
  · intro mk
    unfold continue_update_quotes
    exact walk_from_market_sorted _ _ mk _ _

/-- Witness for C9: the afternoon cutoff keeps the date, the morning
cutoff steps one day back, and an epoch-dated run schedules the TWSE
sync of the epoch itself. -/
theorem continue_sync_schedule_witness :
    effective_today 10 16 = 10 ∧ effective_today 10 3 = 10 - 1 ∧
    (("TWSE".data), QUOTE_EPOCH) ∈ continue_update_quotes QUOTE_EPOCH 16 emptyDB :=
  ⟨(continue_sync_schedule 10 16 emptyDB).1 (by omega),
   (continue_sync_schedule 10 3 emptyDB).2.1 (by omega),
   ((continue_sync_schedule QUOTE_EPOCH 16 emptyDB).2.2.1 QUOTE_EPOCH).mpr
     ⟨by decide, by decide⟩⟩

/-- C10: for every begin date, end date and market argument and every
content of the stock_future_view, count_stocks returns exactly the
number of StockInfo records yielded by list_stocks with the same
arguments: both apply the same build_stock_where predicate (which
excludes the two market-marker ids) over the same view, and the ORDER BY
of list_stocks only reorders the filtered rows. -/
theorem count_stocks_eq_list_stocks_length (b e : Option Nat)
    (m : Option Chars) (view : List ViewRow) :
    count_stocks b e m view = (list_stocks b e m view).length := by
  unfold count_stocks list_stocks
  rw [List.length_map, sortByID_length]
